import Mathlib

/-!
Verification of the query-parameter parsing engine of the basilisk
repository, a shallow embedding of `src/basilisk/query_parser.py`.

Python strings are modelled as `List Char` (faithful for the ASCII
inputs the parser grammar is about); Python string methods used by the
source (`split`, `strip`, `lower`, `replace("_","")`, `isalnum`,
`index`, `rindex`, slicing, `in`) are embedded below as functions over
`List Char`.  The SQLAlchemy `Query` object is modelled as the ordered
list of operations the parser appends to it (`filter`, `group_by`,
`with_entities`, `order_by`); the ORM model class is modelled by its
set of attribute names (`hasattr` becomes list membership), following
the FieldSchema abstraction of the specification.

Every `HTTPException(400, detail=...)` raised by the source is mapped,
by its detail message family, onto the specification's four-member
error taxonomy:
  "Invalid filter field", "Invalid select field",
  "Invalid select field format", "Invalid column in aggregation",
  "Invalid order by field", "Invalid group by field"  ↦ `invalidField`
  "Invalid aggregation function"                      ↦ `invalidAggregation`
  "Invalid alias format"                              ↦ `invalidAlias`
  "Invalid order direction"                           ↦ `invalidDirection`
A Python exception that is not an `HTTPException` (the source can hit
an uncaught `ValueError` from `str.index`/`str.rindex`) is modelled by
the extra constructor `valueError`.
-/

/-- Python `str` modelled as a list of characters. -/
abbrev PyStr := List Char

/-- Coerce a Lean string literal to the `PyStr` model. -/
def pystr (s : String) : PyStr := s.data

/-- Python `str.split(sep)` for a one-character separator `c`:
splits at every occurrence, keeping empty parts. -/
def splitChar (c : Char) : List Char → List (List Char)
  | [] => [[]]
  | a :: rest =>
    if a = c then [] :: splitChar c rest
    else
      match splitChar c rest with
      | [] => [[a]]
      | g :: gs => (a :: g) :: gs

/-- Python `str.split(" as ")` on an (already lower-cased) string:
splits at every non-overlapping occurrence of `" as "`, left to right.
The pattern is fixed to the four characters space-a-s-space, which is
the only multi-character separator the source uses. -/
def splitAs : List Char → List (List Char)
  | [] => [[]]
  | ' ' :: 'a' :: 's' :: ' ' :: rest => [] :: splitAs rest
  | a :: rest =>
    match splitAs rest with
    | [] => [[a]]
    | g :: gs => (a :: g) :: gs

/-- Python `str.split(sep, 1)` for a one-character separator: splits at
the first occurrence only, returning the part before it and the
(unsplit) remainder. -/
def splitOnceChar (c : Char) (s : PyStr) : PyStr × PyStr :=
  match splitChar c s with
  | [] => (s, [])
  | p :: ps => (p, List.intercalate [c] ps)

/-- Python `str.strip()`: remove leading and trailing whitespace. -/
def pyStrip (s : PyStr) : PyStr :=
  ((s.dropWhile Char.isWhitespace).reverse.dropWhile Char.isWhitespace).reverse

/-- The ASCII upper-to-lower case table. -/
def lowerPairs : List (Char × Char) :=
  [('A', 'a'), ('B', 'b'), ('C', 'c'), ('D', 'd'), ('E', 'e'), ('F', 'f'),
   ('G', 'g'), ('H', 'h'), ('I', 'i'), ('J', 'j'), ('K', 'k'), ('L', 'l'),
   ('M', 'm'), ('N', 'n'), ('O', 'o'), ('P', 'p'), ('Q', 'q'), ('R', 'r'),
   ('S', 's'), ('T', 't'), ('U', 'u'), ('V', 'v'), ('W', 'w'), ('X', 'x'),
   ('Y', 'y'), ('Z', 'z')]

/-- Python `str.lower()` on one ASCII character. -/
def pyToLower (c : Char) : Char := (List.lookup c lowerPairs).getD c

/-- Python `str.lower()`. -/
def pyLower (s : PyStr) : PyStr := s.map pyToLower

/-- Python `str.isalnum()`: nonempty and every character alphanumeric. -/
def pyIsAlnum (s : PyStr) : Bool := !s.isEmpty && s.all Char.isAlphanum

/-- Python `str.replace("_", "")`: drop every underscore. -/
def dropUnderscores (s : PyStr) : PyStr := s.filter (· != '_')

/-- Python `str.index(c)`: index of the first occurrence, if any
(`str.index` raises `ValueError` when there is none). -/
def firstIdxOf (c : Char) : List Char → Option Nat
  | [] => none
  | a :: rest => if a = c then some 0 else (firstIdxOf c rest).map (· + 1)

/-- Python `str.rindex(c)`: index of the last occurrence, if any
(`str.rindex` raises `ValueError` when there is none). -/
def lastIdxOf (c : Char) : List Char → Option Nat
  | [] => none
  | a :: rest =>
    match lastIdxOf c rest with
    | some j => some (j + 1)
    | none => if a = c then some 0 else none

/-- Python slice `s[i:j]` for `0 ≤ i, j` (clamping semantics). -/
def pySlice (s : PyStr) (i j : Nat) : PyStr := (s.drop i).take (j - i)

/-- A WHERE predicate emitted by `apply_filters`:
`column == value` or `column.in_(values)`. -/
inductive FilterPred
  | eq (field lit : PyStr)
  | inList (field : PyStr) (lits : List PyStr)
deriving DecidableEq

/-- A column expression in a projection: a plain model column
(`getattr(model, name)`) or an aggregate (`getattr(func, fn)(column)`). -/
inductive SelExpr
  | col (field : PyStr)
  | agg (fn field : PyStr)
deriving DecidableEq

/-- One operation appended to the SQLAlchemy `Query` by the parser:
`query.filter(...)`, `query.group_by(...)`, `query.with_entities(...)`
(each entity paired with its label, if any), `query.order_by(asc(...))`
or `query.order_by(desc(...))`. -/
inductive Op
  | filter (p : FilterPred)
  | groupCol (field : PyStr)
  | withEntities (cols : List (SelExpr × Option PyStr))
  | orderAsc (field : PyStr)
  | orderDesc (field : PyStr)
deriving DecidableEq

/-- The SQLAlchemy `Query` modelled as the ordered list of operations
applied to it. -/
abbrev Query := List Op

/-- The operation context carried by a field-validation failure
(the source names it in the exception's detail message). -/
inductive FieldCtx
  | filterCtx
  | selectCtx
  | orderCtx
  | groupCtx
deriving DecidableEq

/-- The error taxonomy of the specification, plus `valueError` for a
Python exception that is not one of the typed `HTTPException`s (the
source can raise an uncaught `ValueError` from `str.index`/`str.rindex`
in `_parse_select_fields`). -/
inductive QueryError
  | invalidField (ctx : FieldCtx) (name : PyStr)
  | invalidAggregation (name : PyStr)
  | invalidAlias (name : PyStr)
  | invalidDirection (dir : PyStr)
  | valueError (msg : PyStr)
deriving DecidableEq


/-- Decidable equality for `Except`, used to evaluate the embedded
parser on concrete inputs. -/
instance {ε α : Type} [DecidableEq ε] [DecidableEq α] : DecidableEq (Except ε α) := fun a b =>
  match a, b with
  | .ok x, .ok y =>
    if h : x = y then .isTrue (by rw [h]) else .isFalse (fun hc => by cases hc; exact h rfl)
  | .error x, .error y =>
    if h : x = y then .isTrue (by rw [h]) else .isFalse (fun hc => by cases hc; exact h rfl)
  | .ok _, .error _ => .isFalse (fun hc => by cases hc)
  | .error _, .ok _ => .isFalse (fun hc => by cases hc)

/-- `QueryParser.ALLOWED_AGGREGATIONS`. -/
def allowedAggregations : List PyStr :=
  [pystr "count", pystr "sum", pystr "avg", pystr "min", pystr "max"]

/-- `QueryParser.ALLOWED_ORDER_DIRECTIONS`. -/
def allowedOrderDirections : List PyStr := [pystr "asc", pystr "desc"]

/-- `QueryParser.reserved_params`. -/
def reservedParams : List PyStr :=
  [pystr "select", pystr "orderBy", pystr "groupBy", pystr "skip", pystr "limit"]

/-- The parser state after `QueryParser.__init__`: the model's
attribute names (FieldSchema), the residual filter parameters, and the
three extracted reserved values. -/
structure QueryParser where
  schema : List PyStr
  params : List (PyStr × PyStr)
  selectFields : Option PyStr
  orderBy : Option PyStr
  groupBy : Option PyStr
deriving DecidableEq

/-- `QueryParser._extract_param` / `dict.pop(name, None)`: the value of
the key (if present) and the mapping with that key removed. -/
def popParam (k : PyStr) (ps : List (PyStr × PyStr)) :
    Option PyStr × List (PyStr × PyStr) :=
  match List.lookup k ps with
  | none => (none, ps)
  | some v => (some v, ps.filter (fun p => p.1 != k))

/-- `QueryParser.__init__`: copy the query params, then pop `select`,
`orderBy` and `groupBy` from the copy. -/
def QueryParser.init (schema : List PyStr) (queryParams : List (PyStr × PyStr)) :
    QueryParser :=
  let (sel, p1) := popParam (pystr "select") queryParams
  let (ob, p2) := popParam (pystr "orderBy") p1
  let (gb, p3) := popParam (pystr "groupBy") p2
  { schema := schema, params := p3, selectFields := sel, orderBy := ob, groupBy := gb }

/-- `QueryParser._parse_filter_values`: split on comma, strip each
part, drop empty parts. -/
def parseFilterValues (v : PyStr) : List PyStr :=
  ((splitChar ',' v).map pyStrip).filter (· ≠ [])

/-- The loop body of `QueryParser.apply_filters` over the residual
parameters, threading the query. -/
def applyFiltersAux (schema : List PyStr) :
    List (PyStr × PyStr) → Query → Except QueryError Query
  | [], q => .ok q
  | (k, v) :: rest, q =>
    if k ∈ reservedParams then applyFiltersAux schema rest q
    else if k ∉ schema then .error (.invalidField .filterCtx k)
    else
      match parseFilterValues v with
      | [] => applyFiltersAux schema rest q
      | [x] => applyFiltersAux schema rest (q ++ [.filter (.eq k x)])
      | x :: y :: more => applyFiltersAux schema rest (q ++ [.filter (.inList k (x :: y :: more))])

/-- `QueryParser.apply_filters`. -/
def applyFilters (qp : QueryParser) (q : Query) : Except QueryError Query :=
  applyFiltersAux qp.schema qp.params q

/-- One comma-separated token of the `select` value, as handled by the
loop body of `QueryParser._parse_select_fields`.  Returns `none` for a
token that is skipped (empty after stripping). -/
def parseSelectToken (schema : List PyStr) (spec0 : PyStr) :
    Except QueryError (Option (SelExpr × Option PyStr)) :=
  let fs := pyStrip spec0
  if fs = [] then .ok none
  else if '(' ∈ fs then
    -- aggregation branch
    let fpa : PyStr × Option PyStr :=
      if ';' ∈ fs then
        let parts := splitChar ';' fs
        (pyStrip (parts.headD []),
         if 1 < parts.length then some (pyStrip (parts.getD 1 [])) else none)
      else if 2 ≤ (splitAs (pyLower fs)).length then
        let parts := splitAs (pyLower fs)
        (pyStrip (parts.headD []),
         if 1 < parts.length then some (pyStrip (parts.getD 1 [])) else none)
      else (pyStrip fs, none)
    let funcPart := fpa.1
    let alias0 := fpa.2
    match alias0 with
    | some al =>
      if al ≠ [] ∧ ¬ pyIsAlnum (dropUnderscores al) then .error (.invalidAlias al)
      else
        match firstIdxOf '(' funcPart with
        | none => .error (.valueError (pystr "substring not found"))
        | some i =>
          let funcName := pyLower (pyStrip (funcPart.take i))
          match lastIdxOf ')' funcPart with
          | none => .error (.valueError (pystr "substring not found"))
          | some r =>
            let columnName := pyStrip (pySlice funcPart (i + 1) r)
            if funcName ∉ allowedAggregations then .error (.invalidAggregation funcName)
            else if columnName ∉ schema then .error (.invalidField .selectCtx columnName)
            else .ok (some (.agg funcName columnName, alias0))
    | none =>
      match firstIdxOf '(' funcPart with
      | none => .error (.valueError (pystr "substring not found"))
      | some i =>
        let funcName := pyLower (pyStrip (funcPart.take i))
        match lastIdxOf ')' funcPart with
        | none => .error (.valueError (pystr "substring not found"))
        | some r =>
          let columnName := pyStrip (pySlice funcPart (i + 1) r)
          if funcName ∉ allowedAggregations then .error (.invalidAggregation funcName)
          else if columnName ∉ schema then .error (.invalidField .selectCtx columnName)
          else .ok (some (.agg funcName columnName, alias0))
  else
    -- simple-field branch
    let fna : PyStr × Option PyStr :=
      if ';' ∈ fs then
        let parts := splitChar ';' fs
        (pyStrip (parts.headD []),
         if 1 < parts.length then some (pyStrip (parts.getD 1 [])) else none)
      else if 2 ≤ (splitAs (pyLower fs)).length then
        let parts := splitAs (pyLower fs)
        (pyStrip (parts.headD []),
         if 1 < parts.length then some (pyStrip (parts.getD 1 [])) else none)
      else (pyStrip fs, none)
    let fieldName := fna.1
    if ¬ pyIsAlnum (dropUnderscores fieldName) then
      .error (.invalidField .selectCtx fieldName)
    else
      match fna.2 with
      | some al =>
        if al ≠ [] ∧ ¬ pyIsAlnum (dropUnderscores al) then .error (.invalidAlias al)
        else if fieldName ∉ schema then .error (.invalidField .selectCtx fieldName)
        else .ok (some (.col fieldName, fna.2))
      | none =>
        if fieldName ∉ schema then .error (.invalidField .selectCtx fieldName)
        else .ok (some (.col fieldName, fna.2))

/-- The loop of `QueryParser._parse_select_fields` over the
comma-separated tokens, left to right, fail-fast. -/
def parseSelectFieldsAux (schema : List PyStr) :
    List PyStr → Except QueryError (List (SelExpr × Option PyStr))
  | [] => .ok []
  | sp :: rest =>
    match parseSelectToken schema sp with
    | .error e => .error e
    | .ok none => parseSelectFieldsAux schema rest
    | .ok (some fld) =>
      match parseSelectFieldsAux schema rest with
      | .error e => .error e
      | .ok l => .ok (fld :: l)

/-- `QueryParser._parse_select_fields` applied to a `select` value. -/
def parseSelectFields (schema : List PyStr) (sel : PyStr) :
    Except QueryError (List (SelExpr × Option PyStr)) :=
  parseSelectFieldsAux schema (splitChar ',' sel)

/-- `QueryParser.apply_selection`: a no-op when `select` is absent or
empty or parses to no fields; otherwise one `with_entities` call whose
entities are labelled exactly when their alias is truthy (non-empty). -/
def applySelection (qp : QueryParser) (q : Query) : Except QueryError Query :=
  match qp.selectFields with
  | none => .ok q
  | some s =>
    if s = [] then .ok q
    else
      match parseSelectFields qp.schema s with
      | .error e => .error e
      | .ok [] => .ok q
      | .ok (f :: fsRest) =>
        .ok (q ++ [.withEntities ((f :: fsRest).map (fun fa =>
          (fa.1, match fa.2 with
                 | some l => if l ≠ [] then some l else none
                 | none => none)))])

/-- One (already stripped, nonempty) orderBy spec, as handled by the
loop body of `QueryParser._parse_order_by`: split on the first `:` and
strip-and-lower the direction, defaulting to `asc`. -/
def parseOrderSpec (spec : PyStr) : PyStr × PyStr :=
  if ':' ∈ spec then
    let cd := splitOnceChar ':' spec
    (pyStrip cd.1, pyLower (pyStrip cd.2))
  else (spec, pystr "asc")

/-- `QueryParser._parse_order_by`: comma-separated `field` or
`field:direction` specs; parts are stripped, empty specs skipped, the
direction is stripped and lower-cased, and defaults to `asc`. -/
def parseOrderBy (ob : Option PyStr) : List (PyStr × PyStr) :=
  match ob with
  | none => []
  | some v =>
    if v = [] then []
    else (((splitChar ',' v).map pyStrip).filter (· ≠ [])).map parseOrderSpec

/-- The loop body of `QueryParser.apply_ordering` over the parsed
specs: validate the column, validate the direction, then append
`asc(column)` or `desc(column)`. -/
def applyOrderingAux (schema : List PyStr) :
    List (PyStr × PyStr) → Query → Except QueryError Query
  | [], q => .ok q
  | (c, d) :: rest, q =>
    if c ∉ schema then .error (.invalidField .orderCtx c)
    else if d ∉ allowedOrderDirections then .error (.invalidDirection d)
    else applyOrderingAux schema rest
      (q ++ [if d = pystr "asc" then .orderAsc c else .orderDesc c])

/-- `QueryParser.apply_ordering`. -/
def applyOrdering (qp : QueryParser) (q : Query) : Except QueryError Query :=
  applyOrderingAux qp.schema (parseOrderBy qp.orderBy) q

/-- `QueryParser._parse_group_by`: comma-separated field names,
stripped, empty parts dropped. -/
def parseGroupBy (gb : Option PyStr) : List PyStr :=
  match gb with
  | none => []
  | some v =>
    if v = [] then []
    else ((splitChar ',' v).map pyStrip).filter (· ≠ [])

/-- The loop body of `QueryParser.apply_grouping`. -/
def applyGroupingAux (schema : List PyStr) :
    List PyStr → Query → Except QueryError Query
  | [], q => .ok q
  | f :: rest, q =>
    if f ∉ schema then .error (.invalidField .groupCtx f)
    else applyGroupingAux schema rest (q ++ [.groupCol f])

/-- `QueryParser.apply_grouping`. -/
def applyGrouping (qp : QueryParser) (q : Query) : Except QueryError Query :=
  applyGroupingAux qp.schema (parseGroupBy qp.groupBy) q

/-- `QueryParser.build_query` on an initialized parser: filters, then
grouping, then selection, then ordering, fail-fast. -/
def buildQueryP (qp : QueryParser) (base : Query) : Except QueryError Query :=
  match applyFilters qp base with
  | .error e => .error e
  | .ok q1 =>
    match applyGrouping qp q1 with
    | .error e => .error e
    | .ok q2 =>
      match applySelection qp q2 with
      | .error e => .error e
      | .ok q3 => applyOrdering qp q3

/-- Construct a `QueryParser` and run `build_query`. -/
def buildQuery (schema : List PyStr) (queryParams : List (PyStr × PyStr))
    (base : Query) : Except QueryError Query :=
  buildQueryP (QueryParser.init schema queryParams) base

/-- A character that may appear in a plain identifier (alphanumeric or
underscore). -/
def charOkIdent (c : Char) : Bool := c.isAlphanum || c == '_'

/-- A plain identifier: nonempty, alphanumeric-or-underscore only. -/
def isIdent (s : PyStr) : Bool := !s.isEmpty && s.all charOkIdent

/-- No whitespace character anywhere in the string. -/
def noWs (s : PyStr) : Bool := s.all (fun c => !c.isWhitespace)

/-- Classify a query operation by pipeline stage: filter < group <
select < order. -/
def opKind : Op → Nat
  | .filter _ => 0
  | .groupCol _ => 1
  | .withEntities _ => 2
  | .orderAsc _ => 3
  | .orderDesc _ => 3

/-- Render one orderBy spec: `field` or `field:direction`. -/
def renderSpec (p : PyStr × Option PyStr) : PyStr :=
  match p.2 with
  | none => p.1
  | some d => p.1 ++ ':' :: d

/-- Render a list of orderBy specs as the comma-separated `orderBy`
value. -/
def renderOrderBy (specs : List (PyStr × Option PyStr)) : PyStr :=
  List.intercalate [','] (specs.map renderSpec)

/-- A Python dict value in the heap model used to state the
no-mutation contract of `QueryParser.__init__`. -/
abbrev PyDict := List (PyStr × PyStr)

/-- A heap of dict objects; a reference is an index into the heap. -/
structure Heap where
  cells : List PyDict

/-- Dereference a dict. -/
def Heap.read (h : Heap) (r : Nat) : PyDict := h.cells.getD r []

/-- Overwrite the dict behind a reference. -/
def Heap.write (h : Heap) (r : Nat) (d : PyDict) : Heap := ⟨h.cells.set r d⟩

/-- Allocate a fresh dict object, returning its reference. -/
def Heap.alloc (h : Heap) (d : PyDict) : Heap × Nat :=
  (⟨h.cells ++ [d]⟩, h.cells.length)

/-- `d.pop(k, None)` on the dict behind reference `r`: mutates that
dict in place when the key is present. -/
def dictPop (h : Heap) (r : Nat) (k : PyStr) : Heap × Option PyStr :=
  let d := h.read r
  match List.lookup k d with
  | none => (h, none)
  | some v => (h.write r (d.filter (fun p => p.1 != k)), some v)

/-- The heap-level state of a `QueryParser` after `__init__`:
a reference to `self.params` plus the three extracted values. -/
structure ParserRefs where
  paramsRef : Nat
  selectVal : Option PyStr
  orderByVal : Option PyStr
  groupByVal : Option PyStr

/-- `QueryParser.__init__` at the heap level: `self.params =
dict(query_params)` allocates a fresh copy of the caller's dict, and
the three `pop` calls mutate only that copy. -/
def initOnHeap (h : Heap) (queryParamsRef : Nat) : Heap × ParserRefs :=
  let a := h.alloc (h.read queryParamsRef)
  let h1 := a.1
  let selfParams := a.2
  let p1 := dictPop h1 selfParams (pystr "select")
  let p2 := dictPop p1.1 selfParams (pystr "orderBy")
  let p3 := dictPop p2.1 selfParams (pystr "groupBy")
  (p3.1, ⟨selfParams, p1.2, p2.2, p3.2⟩)

/-! Helper lemmas about the embedded Python string primitives. -/

/-- An identifier character is none of the grammar's separator
characters and is not whitespace. -/
theorem charOkIdent_spec (c : Char) (h : charOkIdent c = true) :
    c ≠ '(' ∧ c ≠ ')' ∧ c ≠ ';' ∧ c ≠ ',' ∧ c ≠ ':' ∧ c.isWhitespace = false := by
  refine ⟨?_, ?_, ?_, ?_, ?_, ?_⟩
  · rintro rfl; revert h; decide
  · rintro rfl; revert h; decide
  · rintro rfl; revert h; decide
  · rintro rfl; revert h; decide
  · rintro rfl; revert h; decide
  · by_contra hw
    simp only [Bool.not_eq_false] at hw
    have hws : c = ' ' ∨ c = '\t' ∨ c = '\r' ∨ c = '\n' := by
      simpa [Char.isWhitespace, or_assoc] using hw
    rcases hws with rfl | rfl | rfl | rfl <;> revert h <;> decide

/-- A successful association-list lookup returns a listed pair. -/
theorem lookup_mem_pairs {α β : Type} [BEq α] {l : List (α × β)} {k : α} {v : β}
    (h : List.lookup k l = some v) : ∃ p ∈ l, p.2 = v := by
  induction l with
  | nil => cases h
  | cons p t ih =>
    rw [List.lookup] at h
    cases hbeq : (k == p.1) with
    | true =>
      rw [hbeq] at h
      exact ⟨p, List.mem_cons_self p t, by cases h; rfl⟩
    | false =>
      rw [hbeq] at h
      rcases ih h with ⟨q, hq, hv⟩
      exact ⟨q, List.mem_cons_of_mem p hq, hv⟩

/-- Lower-casing never introduces whitespace. -/
theorem pyToLower_not_ws (c : Char) (h : c.isWhitespace = false) :
    (pyToLower c).isWhitespace = false := by
  unfold pyToLower
  cases hl : List.lookup c lowerPairs with
  | none => simpa using h
  | some d =>
    rcases lookup_mem_pairs hl with ⟨p, hp, hv⟩
    have hall : ∀ p ∈ lowerPairs, (p.2).isWhitespace = false := by decide
    simpa [← hv] using hall p hp

theorem noWs_iff {s : PyStr} : noWs s = true ↔ ∀ c ∈ s, c.isWhitespace = false := by
  simp [noWs, List.all_eq_true]

theorem isIdent_iff {s : PyStr} :
    isIdent s = true ↔ s ≠ [] ∧ ∀ c ∈ s, charOkIdent c = true := by
  simp [isIdent, List.all_eq_true, List.isEmpty_iff]

theorem isIdent_noWs {s : PyStr} (h : isIdent s = true) : noWs s = true := by
  rcases isIdent_iff.mp h with ⟨-, hall⟩
  exact noWs_iff.mpr (fun c hc => (charOkIdent_spec c (hall c hc)).2.2.2.2.2)

theorem isIdent_ne_nil {s : PyStr} (h : isIdent s = true) : s ≠ [] :=
  (isIdent_iff.mp h).1

theorem isIdent_not_mem {s : PyStr} (h : isIdent s = true) :
    '(' ∉ s ∧ ')' ∉ s ∧ ';' ∉ s ∧ ',' ∉ s ∧ ':' ∉ s ∧ ' ' ∉ s := by
  rcases isIdent_iff.mp h with ⟨-, hall⟩
  refine ⟨fun hc => ?_, fun hc => ?_, fun hc => ?_, fun hc => ?_, fun hc => ?_, fun hc => ?_⟩
  · exact (charOkIdent_spec _ (hall _ hc)).1 rfl
  · exact (charOkIdent_spec _ (hall _ hc)).2.1 rfl
  · exact (charOkIdent_spec _ (hall _ hc)).2.2.1 rfl
  · exact (charOkIdent_spec _ (hall _ hc)).2.2.2.1 rfl
  · exact (charOkIdent_spec _ (hall _ hc)).2.2.2.2.1 rfl
  · have := (charOkIdent_spec _ (hall _ hc)).2.2.2.2.2
    revert this; decide

theorem noWs_no_space {s : PyStr} (h : noWs s = true) : ∀ c ∈ s, c ≠ ' ' := by
  intro c hc hceq
  subst hceq
  have := noWs_iff.mp h _ hc
  revert this; decide

theorem noWs_lower {s : PyStr} (h : noWs s = true) : noWs (pyLower s) = true := by
  refine noWs_iff.mpr (fun c hc => ?_)
  rcases List.mem_map.mp hc with ⟨c0, hc0, rfl⟩
  exact pyToLower_not_ws c0 (noWs_iff.mp h c0 hc0)

theorem noWs_append {u v : PyStr} (hu : noWs u = true) (hv : noWs v = true) :
    noWs (u ++ v) = true := by
  refine noWs_iff.mpr (fun c hc => ?_)
  rcases List.mem_append.mp hc with hc | hc
  · exact noWs_iff.mp hu c hc
  · exact noWs_iff.mp hv c hc

theorem dropWhile_all_neg {p : Char → Bool} {s : List Char}
    (h : ∀ c ∈ s, p c = false) : s.dropWhile p = s := by
  cases s with
  | nil => rfl
  | cons a t => simp [List.dropWhile_cons, h a (List.mem_cons_self a t)]

theorem pyStrip_noWs {s : PyStr} (h : noWs s = true) : pyStrip s = s := by
  have h' := noWs_iff.mp h
  unfold pyStrip
  rw [dropWhile_all_neg h',
      dropWhile_all_neg (fun c hc => h' c (List.mem_reverse.mp hc)),
      List.reverse_reverse]

/-- Stripping is the identity when both ends are non-whitespace,
whatever is in the middle. -/
theorem pyStrip_cons_concat {a b : Char} {mid : List Char}
    (ha : a.isWhitespace = false) (hb : b.isWhitespace = false) :
    pyStrip (a :: (mid ++ [b])) = a :: (mid ++ [b]) := by
  unfold pyStrip
  rw [List.dropWhile_cons, if_neg (by simp [ha])]
  have hrev : (a :: (mid ++ [b])).reverse = b :: (mid.reverse ++ [a]) := by simp
  rw [hrev, List.dropWhile_cons, if_neg (by simp [hb]), ← hrev, List.reverse_reverse]

theorem pyStrip_single {a : Char} (ha : a.isWhitespace = false) :
    pyStrip [a] = [a] := by
  unfold pyStrip
  simp [List.dropWhile_cons, ha]

theorem splitChar_ne_nil (c : Char) (s : List Char) : splitChar c s ≠ [] := by
  induction s with
  | nil => simp [splitChar]
  | cons a t ih =>
    unfold splitChar
    split
    · simp
    · rcases h : splitChar c t with - | ⟨g, gs⟩ <;> simp

theorem splitChar_not_mem {c : Char} {s : List Char} (h : c ∉ s) :
    splitChar c s = [s] := by
  induction s with
  | nil => rfl
  | cons a t ih =>
    have hac : ¬ a = c := fun he => h (he ▸ List.mem_cons_self a t)
    have hct : c ∉ t := fun hm => h (List.mem_cons_of_mem _ hm)
    unfold splitChar
    rw [if_neg hac, ih hct]

theorem splitChar_append {c : Char} {u rest : List Char} (h : c ∉ u) :
    splitChar c (u ++ c :: rest) = u :: splitChar c rest := by
  induction u with
  | nil => simp [splitChar]
  | cons a t ih =>
    have hac : ¬ a = c := fun he => h (he ▸ List.mem_cons_self a t)
    have hct : c ∉ t := fun hm => h (List.mem_cons_of_mem _ hm)
    show splitChar c (a :: (t ++ c :: rest)) = (a :: t) :: splitChar c rest
    conv_lhs => rw [splitChar]
    rw [if_neg hac, ih hct]

theorem intercalate_cons2 {α : Type} (sep x y : List α) (l : List (List α)) :
    List.intercalate sep (x :: y :: l) = x ++ sep ++ List.intercalate sep (y :: l) := by
  simp [List.intercalate, List.intersperse, List.append_assoc]

theorem intercalate_splitChar (c : Char) (s : List Char) :
    List.intercalate [c] (splitChar c s) = s := by
  induction s with
  | nil => rfl
  | cons a t ih =>
    unfold splitChar
    split
    · rename_i hac
      rcases h2 : splitChar c t with - | ⟨g, gs⟩
      · exact absurd h2 (splitChar_ne_nil c t)
      · rw [h2] at ih
        rw [intercalate_cons2, ih, hac]
        rfl
    · rcases h2 : splitChar c t with - | ⟨g, gs⟩
      · exact absurd h2 (splitChar_ne_nil c t)
      · rw [h2] at ih
        cases gs with
        | nil =>
          simp only [List.intercalate] at ih ⊢
          simp only [List.intersperse, List.flatten] at ih ⊢
          simp_all
        | cons g2 gs2 =>
          rw [intercalate_cons2] at ih
          rw [intercalate_cons2, ← ih]
          simp [List.append_assoc]

theorem splitAs_no_space {s : List Char} (h : ∀ c ∈ s, c ≠ ' ') :
    splitAs s = [s] := by
  induction s with
  | nil => rfl
  | cons a t ih =>
    have ha : a ≠ ' ' := h a (List.mem_cons_self a t)
    have ht : ∀ c ∈ t, c ≠ ' ' := fun c hc => h c (List.mem_cons_of_mem _ hc)
    rw [splitAs, ih ht]
    intro r h2 h3
    exact ha h2

theorem splitAs_append {u rest : List Char} (h : ∀ c ∈ u, c ≠ ' ') :
    splitAs (u ++ ' ' :: 'a' :: 's' :: ' ' :: rest) = u :: splitAs rest := by
  induction u with
  | nil =>
    show splitAs (' ' :: 'a' :: 's' :: ' ' :: rest) = [] :: splitAs rest
    rw [splitAs]
  | cons a t ih =>
    have ha : a ≠ ' ' := h a (List.mem_cons_self a t)
    have ht : ∀ c ∈ t, c ≠ ' ' := fun c hc => h c (List.mem_cons_of_mem _ hc)
    show splitAs (a :: (t ++ ' ' :: 'a' :: 's' :: ' ' :: rest)) =
      (a :: t) :: splitAs rest
    rw [splitAs, ih ht]
    intro r h2 h3
    exact ha h2

theorem firstIdxOf_append {c : Char} {u t : List Char} (h : c ∉ u) :
    firstIdxOf c (u ++ c :: t) = some u.length := by
  induction u with
  | nil => simp [firstIdxOf]
  | cons a u2 ih =>
    have hac : ¬ a = c := fun he => h (he ▸ List.mem_cons_self a u2)
    have hcu : c ∉ u2 := fun hm => h (List.mem_cons_of_mem _ hm)
    show firstIdxOf c (a :: (u2 ++ c :: t)) = some (u2.length + 1)
    unfold firstIdxOf
    rw [if_neg hac, ih hcu]
    rfl

theorem lastIdxOf_concat (c : Char) (u : List Char) :
    lastIdxOf c (u ++ [c]) = some u.length := by
  induction u with
  | nil => simp [lastIdxOf]
  | cons a u2 ih =>
    show lastIdxOf c (a :: (u2 ++ [c])) = some (u2.length + 1)
    unfold lastIdxOf
    rw [ih]

/-! Helper lemmas about parser initialization and the pipeline. -/

theorem lookup_single_ne {k f v : PyStr} (h : ¬ k = f) :
    List.lookup k [(f, v)] = none := by
  simp [List.lookup, beq_eq_false_iff_ne.mpr h]

theorem init_noReserved {schema : List PyStr} {f v : PyStr} (h : f ∉ reservedParams) :
    QueryParser.init schema [(f, v)] = ⟨schema, [(f, v)], none, none, none⟩ := by
  have h1 : ¬ (pystr "select") = f := fun he => h (he ▸ (by simp [reservedParams]))
  have h2 : ¬ (pystr "orderBy") = f := fun he => h (he ▸ (by simp [reservedParams]))
  have h3 : ¬ (pystr "groupBy") = f := fun he => h (he ▸ (by simp [reservedParams]))
  simp [QueryParser.init, popParam,
        lookup_single_ne h1, lookup_single_ne h2, lookup_single_ne h3]

theorem init_selectOnly (schema : List PyStr) (v : PyStr) :
    QueryParser.init schema [(pystr "select", v)] =
      ⟨schema, [], some v, none, none⟩ := rfl

theorem init_orderByOnly (schema : List PyStr) (v : PyStr) :
    QueryParser.init schema [(pystr "orderBy", v)] =
      ⟨schema, [], none, some v, none⟩ := rfl

theorem init_groupByOnly (schema : List PyStr) (v : PyStr) :
    QueryParser.init schema [(pystr "groupBy", v)] =
      ⟨schema, [], none, none, some v⟩ := rfl

/-- With no reserved values extracted, the pipeline reduces to the
filter stage. -/
theorem buildQueryP_only_filters (schema : List PyStr)
    (params : List (PyStr × PyStr)) (base : Query) :
    buildQueryP ⟨schema, params, none, none, none⟩ base =
      applyFiltersAux schema params base := by
  unfold buildQueryP applyFilters
  cases h : applyFiltersAux schema params base with
  | error e => rfl
  | ok q1 => rfl

/-! Stage-shape lemmas: each `apply_*` stage only appends operations
of its own kind. -/

theorem applyFiltersAux_shape (schema : List PyStr) (ps : List (PyStr × PyStr)) :
    ∀ q q' : Query, applyFiltersAux schema ps q = .ok q' →
      ∃ l, q' = q ++ l ∧ ∀ op ∈ l, opKind op = 0 := by
  induction ps with
  | nil =>
    intro q q' h
    rw [applyFiltersAux] at h
    cases h
    exact ⟨[], by simp, by simp⟩
  | cons kv rest ih =>
    rcases kv with ⟨k, v⟩
    intro q q' h
    rw [applyFiltersAux] at h
    split at h
    · exact ih q q' h
    · split at h
      · exact absurd h (by simp)
      · split at h
        · exact ih q q' h
        · rename_i x hx
          rcases ih _ _ h with ⟨l, hl, hall⟩
          refine ⟨Op.filter (.eq k x) :: l, by rw [hl, List.append_assoc]; rfl, ?_⟩
          intro op hop
          rcases List.mem_cons.mp hop with rfl | hop
          · rfl
          · exact hall op hop
        · rename_i x y more hx
          rcases ih _ _ h with ⟨l, hl, hall⟩
          refine ⟨Op.filter (.inList k (x :: y :: more)) :: l,
            by rw [hl, List.append_assoc]; rfl, ?_⟩
          intro op hop
          rcases List.mem_cons.mp hop with rfl | hop
          · rfl
          · exact hall op hop

theorem applyGroupingAux_shape (schema : List PyStr) (fs : List PyStr) :
    ∀ q q' : Query, applyGroupingAux schema fs q = .ok q' →
      ∃ l, q' = q ++ l ∧ ∀ op ∈ l, opKind op = 1 := by
  induction fs with
  | nil =>
    intro q q' h
    rw [applyGroupingAux] at h
    cases h
    exact ⟨[], by simp, by simp⟩
  | cons f rest ih =>
    intro q q' h
    rw [applyGroupingAux] at h
    split at h
    · exact absurd h (by simp)
    · rcases ih _ _ h with ⟨l, hl, hall⟩
      refine ⟨Op.groupCol f :: l, by rw [hl, List.append_assoc]; rfl, ?_⟩
      intro op hop
      rcases List.mem_cons.mp hop with rfl | hop
      · rfl
      · exact hall op hop

theorem applyOrderingAux_shape (schema : List PyStr) (specs : List (PyStr × PyStr)) :
    ∀ q q' : Query, applyOrderingAux schema specs q = .ok q' →
      ∃ l, q' = q ++ l ∧ ∀ op ∈ l, opKind op = 3 := by
  induction specs with
  | nil =>
    intro q q' h
    rw [applyOrderingAux] at h
    cases h
    exact ⟨[], by simp, by simp⟩
  | cons cd rest ih =>
    rcases cd with ⟨c, d⟩
    intro q q' h
    rw [applyOrderingAux] at h
    split at h
    · exact absurd h (by simp)
    · split at h
      · exact absurd h (by simp)
      · rcases ih _ _ h with ⟨l, hl, hall⟩
        refine ⟨(if d = pystr "asc" then Op.orderAsc c else Op.orderDesc c) :: l,
          by rw [hl, List.append_assoc]; rfl, ?_⟩
        intro op hop
        rcases List.mem_cons.mp hop with rfl | hop
        · split <;> rfl
        · exact hall op hop

theorem applySelection_shape (qp : QueryParser) (q q' : Query)
    (h : applySelection qp q = .ok q') :
    ∃ l, q' = q ++ l ∧ ∀ op ∈ l, opKind op = 2 := by
  unfold applySelection at h
  split at h
  · cases h; exact ⟨[], by simp, by simp⟩
  · split at h
    · cases h; exact ⟨[], by simp, by simp⟩
    · split at h
      · exact absurd h (by simp)
      · cases h; exact ⟨[], by simp, by simp⟩
      · rename_i f fsRest heq
        cases h
        refine ⟨[Op.withEntities ((f :: fsRest).map _)], rfl, ?_⟩
        intro op hop
        rcases List.mem_singleton.mp hop with rfl
        rfl

theorem not_mem_append {c : Char} {u v : PyStr} (hu : c ∉ u) (hv : c ∉ v) :
    c ∉ u ++ v := fun hm => (List.mem_append.mp hm).elim hu hv

theorem noWs_cons {c : Char} {s : PyStr} (h1 : c.isWhitespace = false)
    (h2 : noWs s = true) : noWs (c :: s) = true := by
  simp only [noWs, List.all_cons, h1, Bool.not_false, Bool.true_and]
  simpa [noWs] using h2

/-- Stripping is the identity when the first and last characters are
non-whitespace (with a non-whitespace default for the empty string). -/
theorem pyStrip_of_ends {a : PyStr}
    (hh : (a.headD 'x').isWhitespace = false)
    (hl : (a.getLastD 'x').isWhitespace = false) : pyStrip a = a := by
  cases a with
  | nil => rfl
  | cons c t =>
    cases t with
    | nil => exact pyStrip_single (by simpa using hh)
    | cons c2 t2 =>
      rcases List.eq_nil_or_concat (c2 :: t2) with habs | ⟨L, b, hLb⟩
      · cases habs
      · rw [List.concat_eq_append] at hLb
        rw [hLb]
        refine pyStrip_cons_concat (by simpa using hh) ?_
        have : (c :: (c2 :: t2)).getLastD 'x' = b := by
          rw [hLb, show c :: (L ++ [b]) = (c :: L) ++ [b] from rfl, List.getLastD_concat]
        rw [← this]
        exact hl

theorem intercalate_single {α : Type} (sep : List α) (x : List α) :
    List.intercalate sep [x] = x := by
  simp [List.intercalate, List.intersperse]

theorem renderOrderBy_cons2 (p q : PyStr × Option PyStr)
    (rest : List (PyStr × Option PyStr)) :
    renderOrderBy (p :: q :: rest) = renderSpec p ++ ',' :: renderOrderBy (q :: rest) := by
  show List.intercalate [','] (renderSpec p :: renderSpec q :: rest.map renderSpec) = _
  rw [intercalate_cons2]
  simp [renderOrderBy, List.append_assoc]

/-! Claim theorems. -/

/-- C3: the claim states that `build_query` either returns a complete
plan or raises one of the four typed validation errors and that no
other exception escapes.  The code violates this: a select token that
contains `(` but no `)` (for example `count(id`) reaches
`func_part.rindex(")")`, which raises an uncaught `ValueError` — not an
`HTTPException` — so an untyped exception escapes plan construction.
This theorem evaluates the embedded code at that failing input. -/
theorem C3_untyped_error_escapes :
    buildQuery [pystr "id"] [(pystr "select", pystr "count(id")] [] =
      .error (.valueError (pystr "substring not found")) := by decide

/-- C4: whenever `build_query` succeeds, the emitted plan consists of
the filter operations, then the group operations, then the selection,
then the order operations — in that fixed order, for every raw
parameter mapping (in particular regardless of where the reserved keys
appeared in it). -/
theorem C4_composition_order (schema : List PyStr)
    (params : List (PyStr × PyStr)) (ops : Query)
    (h : buildQuery schema params [] = .ok ops) :
    ∃ fl gl sl ol, ops = fl ++ gl ++ sl ++ ol
      ∧ (∀ op ∈ fl, opKind op = 0) ∧ (∀ op ∈ gl, opKind op = 1)
      ∧ (∀ op ∈ sl, opKind op = 2) ∧ (∀ op ∈ ol, opKind op = 3) := by
  unfold buildQuery buildQueryP at h
  split at h
  · cases h
  · rename_i q1 h1
    split at h
    · cases h
    · rename_i q2 h2
      split at h
      · cases h
      · rename_i q3 h3
        unfold applyFilters at h1
        unfold applyGrouping at h2
        unfold applyOrdering at h
        rcases applyFiltersAux_shape _ _ _ _ h1 with ⟨fl, hfl, hf0⟩
        rcases applyGroupingAux_shape _ _ _ _ h2 with ⟨gl, hgl, hg1⟩
        rcases applySelection_shape _ _ _ h3 with ⟨sl, hsl, hs2⟩
        rcases applyOrderingAux_shape _ _ _ _ h with ⟨ol, hol, ho3⟩
        refine ⟨fl, gl, sl, ol, ?_, hf0, hg1, hs2, ho3⟩
        simp only [List.nil_append] at hfl
        rw [hol, hsl, hgl, hfl]

/-- C5: for a schema-valid, non-reserved filter field, splitting the
value on commas, trimming and dropping empties yields the literals: no
literal emits no predicate and no error; one literal emits an equality
predicate; two or more emit a membership predicate over exactly those
literals. -/
theorem C5_filter_arity (schema : List PyStr) (f v : PyStr) (base : Query)
    (hf : f ∈ schema) (hr : f ∉ reservedParams) :
    (parseFilterValues v = [] → buildQuery schema [(f, v)] base = .ok base) ∧
    (∀ x, parseFilterValues v = [x] →
      buildQuery schema [(f, v)] base = .ok (base ++ [Op.filter (.eq f x)])) ∧
    (∀ x y more, parseFilterValues v = x :: y :: more →
      buildQuery schema [(f, v)] base =
        .ok (base ++ [Op.filter (.inList f (x :: y :: more))])) := by
  have hinit := @init_noReserved schema f v hr
  refine ⟨?_, ?_, ?_⟩
  · intro hv
    unfold buildQuery
    rw [hinit, buildQueryP_only_filters, applyFiltersAux, if_neg hr,
        if_neg (not_not_intro hf), hv]
    rfl
  · intro x hv
    unfold buildQuery
    rw [hinit, buildQueryP_only_filters, applyFiltersAux, if_neg hr,
        if_neg (not_not_intro hf), hv]
    rfl
  · intro x y more hv
    unfold buildQuery
    rw [hinit, buildQueryP_only_filters, applyFiltersAux, if_neg hr,
        if_neg (not_not_intro hf), hv]
    rfl

/-- With only a `select` value extracted, a selection failure is the
pipeline's outcome. -/
theorem buildQueryP_select_err {schema : List PyStr} {s : PyStr} {base : Query}
    {e : QueryError}
    (h : applySelection ⟨schema, [], some s, none, none⟩ base = .error e) :
    buildQueryP ⟨schema, [], some s, none, none⟩ base = .error e := by
  unfold buildQueryP
  show (match applySelection ⟨schema, [], some s, none, none⟩ base with
        | Except.error e => Except.error e
        | Except.ok q3 => applyOrdering ⟨schema, [], some s, none, none⟩ q3) =
      Except.error e
  rw [h]

/-- With only a `groupBy` value extracted, a grouping failure is the
pipeline's outcome. -/
theorem buildQueryP_group_err {schema : List PyStr} {g : PyStr} {base : Query}
    {e : QueryError}
    (h : applyGrouping ⟨schema, [], none, none, some g⟩ base = .error e) :
    buildQueryP ⟨schema, [], none, none, some g⟩ base = .error e := by
  unfold buildQueryP
  show (match applyGrouping ⟨schema, [], none, none, some g⟩ base with
        | Except.error e => Except.error e
        | Except.ok q2 =>
          match applySelection ⟨schema, [], none, none, some g⟩ q2 with
          | Except.error e => Except.error e
          | Except.ok q3 => applyOrdering ⟨schema, [], none, none, some g⟩ q3) =
      Except.error e
  rw [h]

/-- With only an `orderBy` value extracted, the pipeline reduces to the
ordering stage. -/
theorem buildQueryP_order_only (schema : List PyStr) (o : PyStr) (base : Query) :
    buildQueryP ⟨schema, [], none, some o, none⟩ base =
      applyOrderingAux schema (parseOrderBy (some o)) base := rfl

/-- `_parse_order_by` on a single clean (comma-free, stripped,
nonempty) spec. -/
theorem parseOrderBy_single {f : PyStr} (hne : f ≠ []) (hc : ',' ∉ f)
    (hst : pyStrip f = f) :
    parseOrderBy (some f) = [parseOrderSpec f] := by
  simp only [parseOrderBy]
  rw [if_neg hne, splitChar_not_mem hc]
  simp [hst, hne]

/-- Witness for C4: the specification's worked scenario, with the
reserved keys deliberately scattered through the raw mapping. -/
theorem C4_witness :
    (buildQuery [pystr "id", pystr "name", pystr "category", pystr "price"]
      [(pystr "orderBy", pystr "category:asc"),
       (pystr "category", pystr "Electronics,Books"),
       (pystr "select", pystr "category,count(id);total"),
       (pystr "groupBy", pystr "category")] [] =
      .ok [Op.filter (.inList (pystr "category") [pystr "Electronics", pystr "Books"]),
           Op.groupCol (pystr "category"),
           Op.withEntities [(.col (pystr "category"), none),
                            (.agg (pystr "count") (pystr "id"), some (pystr "total"))],
           Op.orderAsc (pystr "category")]) ∧
    ∃ fl gl sl ol,
      [Op.filter (.inList (pystr "category") [pystr "Electronics", pystr "Books"]),
       Op.groupCol (pystr "category"),
       Op.withEntities [(.col (pystr "category"), none),
                        (.agg (pystr "count") (pystr "id"), some (pystr "total"))],
       Op.orderAsc (pystr "category")] = fl ++ gl ++ sl ++ ol
      ∧ (∀ op ∈ fl, opKind op = 0) ∧ (∀ op ∈ gl, opKind op = 1)
      ∧ (∀ op ∈ sl, opKind op = 2) ∧ (∀ op ∈ ol, opKind op = 3) :=
  ⟨by decide,
   C4_composition_order
     [pystr "id", pystr "name", pystr "category", pystr "price"]
     [(pystr "orderBy", pystr "category:asc"),
      (pystr "category", pystr "Electronics,Books"),
      (pystr "select", pystr "category,count(id);total"),
      (pystr "groupBy", pystr "category")]
     _ (by decide)⟩

/-- Witness for C5: the two-literal membership case of the
specification's multi-value example. -/
theorem C5_witness :
    (pystr "status" ∈ [pystr "status"] ∧ pystr "status" ∉ reservedParams ∧
      parseFilterValues (pystr "active,pending") = [pystr "active", pystr "pending"]) ∧
    buildQuery [pystr "status"] [(pystr "status", pystr "active,pending")] [] =
      .ok [Op.filter (.inList (pystr "status") [pystr "active", pystr "pending"])] :=
  ⟨by decide,
   (C5_filter_arity [pystr "status"] (pystr "status") (pystr "active,pending") []
      (by decide) (by decide)).2.2 (pystr "active") (pystr "pending") [] (by decide)⟩

/-- C1: a plain-identifier field name that is not in the schema is
rejected with `InvalidFieldError` naming it, wherever it is used: as a
non-reserved filter key, as a (plain) select token, as an orderBy
token, or as a groupBy token. -/
theorem C1_unknown_field_rejected (schema : List PyStr) (f : PyStr)
    (hi : isIdent f = true) (hs : f ∉ schema) (hr : f ∉ reservedParams) :
    (∀ v base, buildQuery schema [(f, v)] base =
      .error (.invalidField .filterCtx f)) ∧
    (∀ base, buildQuery schema [(pystr "select", f)] base =
      .error (.invalidField .selectCtx f)) ∧
    (∀ base, buildQuery schema [(pystr "orderBy", f)] base =
      .error (.invalidField .orderCtx f)) ∧
    (∀ base, buildQuery schema [(pystr "groupBy", f)] base =
      .error (.invalidField .groupCtx f)) := by
  have hnw := isIdent_noWs hi
  have hmem := isIdent_not_mem hi
  have hne : f ≠ [] := isIdent_ne_nil hi
  have hstrip : pyStrip f = f := pyStrip_noWs hnw
  have hsplitComma : splitChar ',' f = [f] := splitChar_not_mem hmem.2.2.2.1
  have hsplitAs : splitAs (pyLower f) = [pyLower f] :=
    splitAs_no_space (noWs_no_space (noWs_lower hnw))
  refine ⟨?_, ?_, ?_, ?_⟩
  · intro v base
    unfold buildQuery
    rw [init_noReserved hr, buildQueryP_only_filters, applyFiltersAux,
        if_neg hr, if_pos hs]
  · intro base
    unfold buildQuery
    rw [init_selectOnly]
    refine buildQueryP_select_err ?_
    have htok : parseSelectToken schema f = .error (.invalidField .selectCtx f) := by
      unfold parseSelectToken
      rw [hstrip, if_neg hne, if_neg hmem.1, if_neg hmem.2.2.1, hsplitAs]
      by_cases hfmt : pyIsAlnum (dropUnderscores f) = true
      · simp [hstrip, hfmt, hs]
      · simp [hstrip, hfmt]
    have hsel : parseSelectFields schema f = .error (.invalidField .selectCtx f) := by
      unfold parseSelectFields
      rw [hsplitComma, parseSelectFieldsAux, htok]
    simp only [applySelection, hsel, if_neg hne]
  · intro base
    unfold buildQuery
    rw [init_orderByOnly, buildQueryP_order_only,
        parseOrderBy_single hne hmem.2.2.2.1 hstrip,
        show parseOrderSpec f = (f, pystr "asc") by
          unfold parseOrderSpec; rw [if_neg hmem.2.2.2.2.1],
        applyOrderingAux, if_pos hs]
  · intro base
    unfold buildQuery
    rw [init_groupByOnly]
    refine buildQueryP_group_err ?_
    unfold applyGrouping parseGroupBy
    show applyGroupingAux schema
      (if f = [] then []
       else ((splitChar ',' f).map pyStrip).filter (· ≠ [])) base = _
    rw [if_neg hne, hsplitComma]
    simp only [List.map_cons, List.map_nil, hstrip]
    rw [List.filter_cons_of_pos (by simpa using hne), List.filter_nil,
        applyGroupingAux, if_pos hs]

/-- Witness for C1: the unknown field `bogus` against a schema `{id}`,
used in all four positions. -/
theorem C1_witness :
    (isIdent (pystr "bogus") = true ∧ pystr "bogus" ∉ [pystr "id"] ∧
      pystr "bogus" ∉ reservedParams) ∧
    buildQuery [pystr "id"] [(pystr "bogus", pystr "1")] [] =
      .error (.invalidField .filterCtx (pystr "bogus")) ∧
    buildQuery [pystr "id"] [(pystr "select", pystr "bogus")] [] =
      .error (.invalidField .selectCtx (pystr "bogus")) ∧
    buildQuery [pystr "id"] [(pystr "orderBy", pystr "bogus")] [] =
      .error (.invalidField .orderCtx (pystr "bogus")) ∧
    buildQuery [pystr "id"] [(pystr "groupBy", pystr "bogus")] [] =
      .error (.invalidField .groupCtx (pystr "bogus")) :=
  ⟨by decide,
   (C1_unknown_field_rejected [pystr "id"] (pystr "bogus")
      (by decide) (by decide) (by decide)).1 (pystr "1") [],
   (C1_unknown_field_rejected [pystr "id"] (pystr "bogus")
      (by decide) (by decide) (by decide)).2.1 [],
   (C1_unknown_field_rejected [pystr "id"] (pystr "bogus")
      (by decide) (by decide) (by decide)).2.2.1 [],
   (C1_unknown_field_rejected [pystr "id"] (pystr "bogus")
      (by decide) (by decide) (by decide)).2.2.2 []⟩

/-- C8: for an orderBy spec `field:direction` with a schema-valid
identifier field and a whitespace-free, comma-free direction whose
lower-casing is neither `asc` nor `desc`, plan construction raises
`InvalidDirectionError` naming the lower-cased direction token. -/
theorem C8_invalid_direction (schema : List PyStr) (f d : PyStr) (base : Query)
    (hf : isIdent f = true) (hfs : f ∈ schema)
    (hdw : noWs d = true) (hdc : ',' ∉ d)
    (hdir : pyLower d ∉ allowedOrderDirections) :
    buildQuery schema [(pystr "orderBy", f ++ ':' :: d)] base =
      .error (.invalidDirection (pyLower d)) := by
  have hmem := isIdent_not_mem hf
  have hnwf := isIdent_noWs hf
  have hnev : f ++ ':' :: d ≠ [] := by cases f <;> simp
  have hcv : ',' ∉ f ++ ':' :: d := by
    refine not_mem_append hmem.2.2.2.1 ?_
    intro hm
    rcases List.mem_cons.mp hm with h1 | h1
    · exact absurd h1 (by decide)
    · exact hdc h1
  have hstv : pyStrip (f ++ ':' :: d) = f ++ ':' :: d :=
    pyStrip_noWs (noWs_append hnwf (noWs_cons (by decide) hdw))
  have hsplit1 : splitOnceChar ':' (f ++ ':' :: d) = (f, d) := by
    unfold splitOnceChar
    rw [splitChar_append hmem.2.2.2.2.1]
    show (f, List.intercalate [':'] (splitChar ':' d)) = (f, d)
    rw [intercalate_splitChar]
  have hspec : parseOrderSpec (f ++ ':' :: d) = (f, pyLower d) := by
    unfold parseOrderSpec
    rw [if_pos (List.mem_append.mpr (Or.inr (List.mem_cons_self ':' d))), hsplit1]
    show (pyStrip f, pyLower (pyStrip d)) = (f, pyLower d)
    rw [pyStrip_noWs hnwf, pyStrip_noWs hdw]
  unfold buildQuery
  rw [init_orderByOnly, buildQueryP_order_only,
      parseOrderBy_single hnev hcv hstv, hspec,
      applyOrderingAux, if_neg (not_not_intro hfs), if_pos hdir]

/-- Witness for C8: the specification's rejection scenario
`orderBy=price:sideways`. -/
theorem C8_witness :
    (isIdent (pystr "price") = true ∧ pystr "price" ∈ [pystr "price"] ∧
     noWs (pystr "sideways") = true ∧ ',' ∉ pystr "sideways" ∧
     pyLower (pystr "sideways") ∉ allowedOrderDirections) ∧
    buildQuery [pystr "price"] [(pystr "orderBy", pystr "price:sideways")] [] =
      .error (.invalidDirection (pystr "sideways")) :=
  ⟨by decide,
   C8_invalid_direction [pystr "price"] (pystr "price") (pystr "sideways") []
     (by decide) (by decide) (by decide) (by decide) (by decide)⟩

theorem parseOrderSpec_noColon {spec : PyStr} (h : ':' ∉ spec) :
    parseOrderSpec spec = (spec, pystr "asc") := by
  unfold parseOrderSpec
  rw [if_neg h]

theorem parseOrderSpec_colon {f d : PyStr} (hf : isIdent f = true)
    (hdw : noWs d = true) :
    parseOrderSpec (f ++ ':' :: d) = (f, pyLower d) := by
  have hmem := isIdent_not_mem hf
  have hsplit1 : splitOnceChar ':' (f ++ ':' :: d) = (f, d) := by
    unfold splitOnceChar
    rw [splitChar_append hmem.2.2.2.2.1]
    show (f, List.intercalate [':'] (splitChar ':' d)) = (f, d)
    rw [intercalate_splitChar]
  unfold parseOrderSpec
  rw [if_pos (List.mem_append.mpr (Or.inr (List.mem_cons_self ':' d))), hsplit1]
  show (pyStrip f, pyLower (pyStrip d)) = (f, pyLower d)
  rw [pyStrip_noWs (isIdent_noWs hf), pyStrip_noWs hdw]

/-- A rendered orderBy spec over an identifier field and a clean
direction is nonempty, comma-free, whitespace-free, and parses back to
the field together with the lower-cased (or defaulted) direction. -/
theorem renderSpec_clean {p : PyStr × Option PyStr}
    (hf : isIdent p.1 = true)
    (hd : ∀ d, p.2 = some d → noWs d = true ∧ ',' ∉ d) :
    renderSpec p ≠ [] ∧ ',' ∉ renderSpec p ∧ noWs (renderSpec p) = true ∧
    parseOrderSpec (renderSpec p) =
      (p.1, match p.2 with | none => pystr "asc" | some d => pyLower d) := by
  rcases p with ⟨f, od⟩
  have hmem := isIdent_not_mem hf
  have hnwf := isIdent_noWs hf
  cases od with
  | none =>
    exact ⟨isIdent_ne_nil hf, hmem.2.2.2.1, hnwf,
           parseOrderSpec_noColon hmem.2.2.2.2.1⟩
  | some d =>
    rcases hd d rfl with ⟨hdw, hdc⟩
    show f ++ ':' :: d ≠ [] ∧ ',' ∉ f ++ ':' :: d ∧
      noWs (f ++ ':' :: d) = true ∧ parseOrderSpec (f ++ ':' :: d) = (f, pyLower d)
    refine ⟨by cases f <;> simp, ?_,
            noWs_append hnwf (noWs_cons (by decide) hdw),
            parseOrderSpec_colon hf hdw⟩
    refine not_mem_append hmem.2.2.2.1 ?_
    intro hm
    rcases List.mem_cons.mp hm with hcc | hcc
    · exact absurd hcc (by decide)
    · exact hdc hcc

/-- Splitting the rendered comma-separated orderBy value recovers the
rendered specs, in order. -/
theorem orderTokens_render (specs : List (PyStr × Option PyStr))
    (hf : ∀ p ∈ specs, isIdent p.1 = true)
    (hd : ∀ p ∈ specs, ∀ d, p.2 = some d → noWs d = true ∧ ',' ∉ d) :
    (((splitChar ',' (renderOrderBy specs)).map pyStrip).filter (· ≠ [])) =
      specs.map renderSpec := by
  induction specs with
  | nil => rfl
  | cons p rest ih =>
    have hp := renderSpec_clean (hf p (List.mem_cons_self p rest))
      (fun d hd2 => hd p (List.mem_cons_self p rest) d hd2)
    cases rest with
    | nil =>
      rw [show renderOrderBy [p] = renderSpec p from intercalate_single _ _,
          splitChar_not_mem hp.2.1]
      simp only [List.map_cons, List.map_nil, pyStrip_noWs hp.2.2.1]
      rw [List.filter_cons_of_pos (by simpa using hp.1), List.filter_nil]
    | cons q rest2 =>
      rw [renderOrderBy_cons2, splitChar_append hp.2.1]
      simp only [List.map_cons]
      rw [pyStrip_noWs hp.2.2.1,
          List.filter_cons_of_pos (by simpa using hp.1),
          ih (fun r hr => hf r (List.mem_cons_of_mem p hr))
             (fun r hr d hd2 => hd r (List.mem_cons_of_mem p hr) d hd2)]
      rfl

/-- C9: for an orderBy value rendered from clean specs over
schema-valid identifier fields, `_parse_order_by` returns the
OrderSpec list in exactly the left-to-right order of the specs, with a
missing direction defaulting to `asc` and an explicit direction
lower-cased. -/
theorem C9_order_preserved (schema : List PyStr)
    (specs : List (PyStr × Option PyStr))
    (hsch : ∀ p ∈ specs, p.1 ∈ schema)
    (hf : ∀ p ∈ specs, isIdent p.1 = true)
    (hd : ∀ p ∈ specs, ∀ d, p.2 = some d → noWs d = true ∧ ',' ∉ d) :
    parseOrderBy (some (renderOrderBy specs)) =
      specs.map (fun p =>
        (p.1, match p.2 with | none => pystr "asc" | some d => pyLower d)) := by
  cases specs with
  | nil => rfl
  | cons p rest =>
    have hp := renderSpec_clean (hf p (List.mem_cons_self p rest))
      (fun d hd2 => hd p (List.mem_cons_self p rest) d hd2)
    have hvne : renderOrderBy (p :: rest) ≠ [] := by
      cases rest with
      | nil =>
        rw [show renderOrderBy [p] = renderSpec p from intercalate_single _ _]
        exact hp.1
      | cons q rest2 =>
        rw [renderOrderBy_cons2]
        intro habs
        rcases List.append_eq_nil.mp habs with ⟨-, habs2⟩
        cases habs2
    simp only [parseOrderBy]
    rw [if_neg hvne, orderTokens_render (p :: rest) hf hd, List.map_map]
    refine List.map_congr_left ?_
    intro q hq
    simp only [Function.comp]
    exact (renderSpec_clean (hf q hq) (fun d hd2 => hd q hq d hd2)).2.2.2

/-- Witness for C9: `orderBy=a:asc,b:desc` yields exactly
`[(a, asc), (b, desc)]`. -/
theorem C9_witness :
    ((∀ p ∈ [((pystr "a"), some (pystr "asc")), ((pystr "b"), some (pystr "desc"))],
        p.1 ∈ [pystr "a", pystr "b"] ∧ isIdent p.1 = true) ∧
     (∀ p ∈ [((pystr "a"), some (pystr "asc")), ((pystr "b"), some (pystr "desc"))],
        ∀ d, p.2 = some d → noWs d = true ∧ ',' ∉ d)) ∧
    parseOrderBy (some (pystr "a:asc,b:desc")) =
      [(pystr "a", pystr "asc"), (pystr "b", pystr "desc")] :=
  ⟨by decide,
   C9_order_preserved [pystr "a", pystr "b"]
     [((pystr "a"), some (pystr "asc")), ((pystr "b"), some (pystr "desc"))]
     (by decide) (by decide) (by decide)⟩

/-- Counterexample for C2: the string `COUNT` is not a member of the
whitelist `{count, sum, avg, min, max}`, yet the select token
`COUNT(id)` does not raise `InvalidAggregationError` — the function
name is lower-cased before the whitelist check, so the token is
accepted.  This falsifies the claim as stated, which quantifies over
every string not in the whitelist. -/
theorem C2_counterexample :
    pystr "COUNT" ∉ allowedAggregations ∧
    parseSelectFields [pystr "id"] (pystr "COUNT(id)") =
      .ok [(.agg (pystr "count") (pystr "id"), none)] := by decide

/-- C2 as amended: for a function-name string `s` free of whitespace,
parentheses, semicolons and commas, whose **stripped lower-casing** is
not in the whitelist, the select token `s(field)` (with an identifier
field) raises `InvalidAggregationError` naming the lower-cased name. -/
theorem C2_amended (schema : List PyStr) (s f : PyStr)
    (hsw : noWs s = true) (hs1 : '(' ∉ s) (hs2 : ')' ∉ s)
    (hs3 : ';' ∉ s) (hs4 : ',' ∉ s)
    (hf : isIdent f = true)
    (hagg : pyLower s ∉ allowedAggregations) :
    parseSelectFields schema (s ++ '(' :: (f ++ [')'])) =
      .error (.invalidAggregation (pyLower s)) := by
  have hmemf := isIdent_not_mem hf
  have hnwf := isIdent_noWs hf
  set t := s ++ '(' :: (f ++ [')']) with ht
  have hnwt : noWs t = true := by
    refine noWs_append hsw (noWs_cons (by decide) (noWs_append hnwf (by decide)))
  have hct : ',' ∉ t := by
    refine not_mem_append hs4 ?_
    intro hm
    rcases List.mem_cons.mp hm with h1 | h1
    · exact absurd h1 (by decide)
    · rcases List.mem_append.mp h1 with h2 | h2
      · exact hmemf.2.2.2.1 h2
      · exact absurd (List.mem_singleton.mp h2) (by decide)
  have hsemit : ';' ∉ t := by
    refine not_mem_append hs3 ?_
    intro hm
    rcases List.mem_cons.mp hm with h1 | h1
    · exact absurd h1 (by decide)
    · rcases List.mem_append.mp h1 with h2 | h2
      · exact hmemf.2.2.1 h2
      · exact absurd (List.mem_singleton.mp h2) (by decide)
  have hparen : '(' ∈ t := List.mem_append.mpr (Or.inr (List.mem_cons_self _ _))
  have hne : t ≠ [] := by cases s <;> simp [ht]
  have hstript : pyStrip t = t := pyStrip_noWs hnwt
  have hsplitAsT : splitAs (pyLower t) = [pyLower t] :=
    splitAs_no_space (noWs_no_space (noWs_lower hnwt))
  have hidx : firstIdxOf '(' t = some s.length := firstIdxOf_append hs1
  have hlast : lastIdxOf ')' t = some (s.length + 1 + f.length) := by
    have h0 : t = (s ++ '(' :: f) ++ [')'] := by simp [ht]
    rw [h0, lastIdxOf_concat]
    simp [List.length_append]
    omega
  have hfunc : pyLower (pyStrip (t.take s.length)) = pyLower s := by
    rw [show t.take s.length = s from by rw [ht]; exact List.take_left s _,
        pyStrip_noWs hsw]
  have hslice : pyStrip (pySlice t (s.length + 1) (s.length + 1 + f.length)) = f := by
    have h0 : t = (s ++ ['(']) ++ (f ++ [')']) := by simp [ht]
    unfold pySlice
    have hd2 : t.drop (s.length + 1) = f ++ [')'] := by
      rw [h0, show s.length + 1 = (s ++ ['(']).length from by simp, List.drop_left]
    rw [hd2, show s.length + 1 + f.length - (s.length + 1) = f.length from by omega,
        List.take_left f [')']]
    exact pyStrip_noWs hnwf
  have htok : parseSelectToken schema t = .error (.invalidAggregation (pyLower s)) := by
    unfold parseSelectToken
    simp only [hstript]
    rw [if_neg hne, if_pos hparen, if_neg hsemit, hsplitAsT]
    simp only [List.length_singleton]
    rw [if_neg (by omega)]
    simp only [hidx, hlast, hfunc, hslice]
    rw [if_pos hagg]
  unfold parseSelectFields
  rw [splitChar_not_mem hct, parseSelectFieldsAux, htok]

/-- Witness for C2's amended statement: the specification's rejection
scenario `select=drop(id)` (alias-free form) raises
`InvalidAggregationError` naming `drop`. -/
theorem C2_witness :
    (noWs (pystr "drop") = true ∧ '(' ∉ pystr "drop" ∧ ')' ∉ pystr "drop" ∧
     ';' ∉ pystr "drop" ∧ ',' ∉ pystr "drop" ∧ isIdent (pystr "id") = true ∧
     pyLower (pystr "drop") ∉ allowedAggregations) ∧
    parseSelectFields [pystr "id"] (pystr "drop(id)") =
      .error (.invalidAggregation (pystr "drop")) :=
  ⟨by decide,
   C2_amended [pystr "id"] (pystr "drop") (pystr "id")
     (by decide) (by decide) (by decide) (by decide) (by decide)
     (by decide) (by decide)⟩

/-- Counterexample for C6: the claim says the text before the ` as `
separator is preserved character-for-character.  The code lower-cases
the whole token before splitting, so with schema `{Name}` the token
`Name as t` fails with an error naming the lower-cased `name` (which
is not schema-valid), where the claim predicts the field `Name` would
be looked up and accepted. -/
theorem C6_counterexample :
    pystr "name" ≠ pystr "Name" ∧
    parseSelectFields [pystr "Name"] (pystr "Name as t") =
      .error (.invalidField .selectCtx (pystr "name")) := by decide

/-- C6 as amended: a select token containing ` as ` (case-insensitive)
is lower-cased wholesale and split at **every** occurrence: the part
before the first occurrence is the (lower-cased) field reference, the
part between the first and second occurrence is the alias, and any
text after a second occurrence is discarded.  Stated here for
already-lower-case identifier pieces so the splitting behaviour is
isolated: `x as y as z` parses to field `x` with alias `y`, and `z` is
dropped. -/
theorem C6_amended (schema : List PyStr) (x y z : PyStr)
    (hx : isIdent x = true) (hy : isIdent y = true) (hz : isIdent z = true)
    (hlx : pyLower x = x) (hly : pyLower y = y) (hlz : pyLower z = z)
    (hfx : pyIsAlnum (dropUnderscores x) = true)
    (hfy : pyIsAlnum (dropUnderscores y) = true) :
    parseSelectFields schema (x ++ pystr " as " ++ y ++ pystr " as " ++ z) =
      (if x ∉ schema then .error (.invalidField .selectCtx x)
       else .ok [(.col x, some y)]) := by
  have hmx := isIdent_not_mem hx
  have hmy := isIdent_not_mem hy
  have hmz := isIdent_not_mem hz
  have hnwx := isIdent_noWs hx
  have hnwy := isIdent_noWs hy
  have hnwz := isIdent_noWs hz
  set t := x ++ pystr " as " ++ y ++ pystr " as " ++ z with ht
  have hAsC : ',' ∉ pystr " as " := by decide
  have hAsP : '(' ∉ pystr " as " := by decide
  have hAsS : ';' ∉ pystr " as " := by decide
  have hct : ',' ∉ t :=
    not_mem_append (not_mem_append (not_mem_append
      (not_mem_append hmx.2.2.2.1 hAsC) hmy.2.2.2.1) hAsC) hmz.2.2.2.1
  have hpt : '(' ∉ t :=
    not_mem_append (not_mem_append (not_mem_append
      (not_mem_append hmx.1 hAsP) hmy.1) hAsP) hmz.1
  have hst : ';' ∉ t :=
    not_mem_append (not_mem_append (not_mem_append
      (not_mem_append hmx.2.2.1 hAsS) hmy.2.2.1) hAsS) hmz.2.2.1
  have hne : t ≠ [] := fun habs => isIdent_ne_nil hz (List.append_eq_nil.mp habs).2
  have hshape : t = x ++ ' ' :: 'a' :: 's' :: ' ' ::
      (y ++ ' ' :: 'a' :: 's' :: ' ' :: z) := by
    simp [ht, pystr, List.append_assoc]
  have hsa : splitAs t = [x, y, z] := by
    rw [hshape, splitAs_append (noWs_no_space hnwx),
        splitAs_append (noWs_no_space hnwy), splitAs_no_space (noWs_no_space hnwz)]
  have hAsL : List.map pyToLower (pystr " as ") = pystr " as " := by decide
  have hplt : pyLower t = t := by
    simp only [pyLower] at hlx hly hlz ⊢
    simp [ht, List.map_append, hlx, hly, hlz, hAsL]
  have hstript : pyStrip t = t := by
    rcases List.exists_cons_of_ne_nil (isIdent_ne_nil hx) with ⟨xa, xt, hxe⟩
    rcases List.eq_nil_or_concat z with hznil | ⟨zi, zl, hze⟩
    · exact absurd hznil (isIdent_ne_nil hz)
    · rw [List.concat_eq_append] at hze
      have hshape2 : t = xa ::
          ((xt ++ pystr " as " ++ y ++ pystr " as " ++ zi) ++ [zl]) := by
        simp [ht, hxe, hze, List.append_assoc]
      rw [hshape2]
      refine pyStrip_cons_concat ?_ ?_
      · have : charOkIdent xa = true :=
          (isIdent_iff.mp hx).2 xa (hxe ▸ List.mem_cons_self xa xt)
        exact (charOkIdent_spec xa this).2.2.2.2.2
      · have hmemz : zl ∈ z := hze ▸ List.mem_append.mpr (Or.inr (List.mem_singleton.mpr rfl))
        have : charOkIdent zl = true := (isIdent_iff.mp hz).2 zl hmemz
        exact (charOkIdent_spec zl this).2.2.2.2.2
  have htok : parseSelectToken schema t =
      (if x ∉ schema then .error (.invalidField .selectCtx x)
       else .ok (some (.col x, some y))) := by
    unfold parseSelectToken
    simp only [hstript, hplt, hsa]
    rw [if_neg hne, if_neg hpt, if_neg hst]
    by_cases hxs : x ∉ schema
    · rw [if_pos hxs]
      simp [pyStrip_noWs hnwx, pyStrip_noWs hnwy, hfx, hfy, hxs]
    · rw [if_neg hxs]
      have hxs2 : x ∈ schema := not_not.mp hxs
      simp [pyStrip_noWs hnwx, pyStrip_noWs hnwy, hfx, hfy, hxs2]
  unfold parseSelectFields
  rw [splitChar_not_mem hct, parseSelectFieldsAux, htok]
  by_cases hxs : x ∉ schema
  · rw [if_pos hxs, if_pos hxs]
  · rw [if_neg hxs, if_neg hxs]
    rw [parseSelectFieldsAux]

/-- Witness for C6's amended statement: `name as t as u` yields field
`name` with alias `t`, discarding `u`. -/
theorem C6_witness :
    (isIdent (pystr "name") = true ∧ isIdent (pystr "t") = true ∧
     isIdent (pystr "u") = true ∧ pyLower (pystr "name") = pystr "name" ∧
     pyIsAlnum (dropUnderscores (pystr "name")) = true ∧
     pyIsAlnum (dropUnderscores (pystr "t")) = true) ∧
    parseSelectFields [pystr "name"] (pystr "name as t as u") =
      .ok [(.col (pystr "name"), some (pystr "t"))] :=
  ⟨by decide,
   (C6_amended [pystr "name"] (pystr "name") (pystr "t") (pystr "u")
     (by decide) (by decide) (by decide) (by decide) (by decide) (by decide)
     (by decide) (by decide)).trans (by decide)⟩

/-- Counterexample for C7: the claim says the alias `total;count`
raises `InvalidAliasError`.  That alias text fails the alias validity
check, but it can never reach it: splitting on `;` truncates, so the
token `name;total;count` is accepted silently with alias `total` and
the trailing `count` discarded. -/
theorem C7_counterexample :
    pyIsAlnum (dropUnderscores (pystr "total;count")) = false ∧
    parseSelectFields [pystr "name"] (pystr "name;total;count") =
      .ok [(.col (pystr "name"), some (pystr "total"))] := by decide

/-- C7 as amended: for a token `field;alias` whose alias part contains
no `;`, `,` or `(` and has non-whitespace ends, the parsed alias is
accepted exactly when it is alphanumeric-or-underscore (or empty);
otherwise `InvalidAliasError` is raised naming it.  An alias containing
`;` can never be produced by parsing (see the counterexample). -/
theorem C7_amended (schema : List PyStr) (f a : PyStr)
    (hf : isIdent f = true) (hff : pyIsAlnum (dropUnderscores f) = true)
    (hfs : f ∈ schema)
    (ha1 : ';' ∉ a) (ha2 : ',' ∉ a) (ha3 : '(' ∉ a)
    (hah : (a.headD 'x').isWhitespace = false)
    (hal : (a.getLastD 'x').isWhitespace = false) :
    parseSelectFields schema (f ++ ';' :: a) =
      (if a ≠ [] ∧ ¬ pyIsAlnum (dropUnderscores a) then .error (.invalidAlias a)
       else .ok [(.col f, some a)]) := by
  have hmf := isIdent_not_mem hf
  have hnwf := isIdent_noWs hf
  set t := f ++ ';' :: a with ht
  have hstripa : pyStrip a = a := pyStrip_of_ends hah hal
  have hct : ',' ∉ t := by
    refine not_mem_append hmf.2.2.2.1 ?_
    intro hm
    rcases List.mem_cons.mp hm with h1 | h1
    · exact absurd h1 (by decide)
    · exact ha2 h1
  have hpt : '(' ∉ t := by
    refine not_mem_append hmf.1 ?_
    intro hm
    rcases List.mem_cons.mp hm with h1 | h1
    · exact absurd h1 (by decide)
    · exact ha3 h1
  have hsemi : ';' ∈ t := List.mem_append.mpr (Or.inr (List.mem_cons_self _ _))
  have hne : t ≠ [] := by cases f <;> simp [ht]
  have hfaOk : ∀ fa ∈ f, (fa : Char).isWhitespace = false := fun fa hm =>
    (charOkIdent_spec fa ((isIdent_iff.mp hf).2 fa hm)).2.2.2.2.2
  have hstript : pyStrip t = t := by
    rcases List.exists_cons_of_ne_nil (isIdent_ne_nil hf) with ⟨fa, ft, hfe⟩
    rcases List.eq_nil_or_concat a with hanil | ⟨ai, al2, hae⟩
    · subst hanil
      have hshape : t = fa :: (ft ++ [';']) := by simp [ht, hfe]
      rw [hshape]
      exact pyStrip_cons_concat (hfaOk fa (hfe ▸ List.mem_cons_self fa ft)) (by decide)
    · rw [List.concat_eq_append] at hae
      have hshape : t = fa :: ((ft ++ ';' :: ai) ++ [al2]) := by
        simp [ht, hfe, hae, List.append_assoc]
      rw [hshape]
      refine pyStrip_cons_concat (hfaOk fa (hfe ▸ List.mem_cons_self fa ft)) ?_
      have hglast : a.getLastD 'x' = al2 := by rw [hae, List.getLastD_concat]
      rw [← hglast]
      exact hal
  have hsplitsemi : splitChar ';' t = f :: splitChar ';' a :=
    splitChar_append hmf.2.2.1
  have hsplita : splitChar ';' a = [a] := splitChar_not_mem ha1
  have htok : parseSelectToken schema t =
      (if a ≠ [] ∧ ¬ pyIsAlnum (dropUnderscores a) then .error (.invalidAlias a)
       else .ok (some (.col f, some a))) := by
    unfold parseSelectToken
    simp only [hstript]
    rw [if_neg hne, if_neg hpt, if_pos hsemi]
    simp only [hsplitsemi, hsplita]
    by_cases hab : a ≠ [] ∧ ¬ pyIsAlnum (dropUnderscores a)
    · rw [if_pos hab]
      simp [pyStrip_noWs hnwf, hstripa, hff, hab.1, hab.2]
    · rw [if_neg hab]
      simp [pyStrip_noWs hnwf, hstripa, hff, hfs, hab]
      intro hne2
      rcases not_and_or.mp hab with h1 | h1
      · exact absurd (not_not.mp h1) hne2
      · exact not_not.mp h1
  unfold parseSelectFields
  rw [splitChar_not_mem hct, parseSelectFieldsAux, htok]
  by_cases hab : a ≠ [] ∧ ¬ pyIsAlnum (dropUnderscores a)
  · rw [if_pos hab, if_pos hab]
  · rw [if_neg hab, if_neg hab]
    rw [parseSelectFieldsAux]

/-- Witness for C7's amended statement: alias `total count` (with an
inner space) raises `InvalidAliasError`, and alias `total_count` is
accepted. -/
theorem C7_witness :
    (isIdent (pystr "name") = true ∧
     pyIsAlnum (dropUnderscores (pystr "name")) = true ∧
     pystr "name" ∈ [pystr "name"] ∧ ';' ∉ pystr "total count" ∧
     ',' ∉ pystr "total count" ∧ '(' ∉ pystr "total count") ∧
    parseSelectFields [pystr "name"] (pystr "name;total count") =
      .error (.invalidAlias (pystr "total count")) :=
  ⟨by decide,
   (C7_amended [pystr "name"] (pystr "name") (pystr "total count")
     (by decide) (by decide) (by decide) (by decide) (by decide) (by decide)
     (by decide) (by decide)).trans (by decide)⟩

theorem read_write_ne (h : Heap) (i r : Nat) (d : PyDict) (hne : i ≠ r) :
    (h.write i d).read r = h.read r := by
  simp [Heap.read, Heap.write, List.getD_eq_getElem?_getD, List.getElem?_set_ne hne]

theorem dictPop_read_other (h : Heap) (i r : Nat) (k : PyStr) (hne : i ≠ r) :
    ((dictPop h i k).1).read r = h.read r := by
  simp only [dictPop]
  rcases hl : List.lookup k (h.read i) with - | v
  · rfl
  · exact read_write_ne h i r _ hne

theorem read_alloc_lt (h : Heap) (d : PyDict) (r : Nat) (hr : r < h.cells.length) :
    ((h.alloc d).1).read r = h.read r := by
  simp [Heap.read, Heap.alloc, List.getD_eq_getElem?_getD, List.getElem?_append, hr]

/-- C10: `QueryParser.__init__` never mutates the caller's query-params
dict.  `self.params = dict(query_params)` allocates a fresh copy, and
the three `pop` calls for `select`, `orderBy` and `groupBy` write only
to that fresh object: the dict behind the caller's reference reads the
same before and after construction.  (The rest of the pipeline is
embedded as pure functions of the parser value and performs no heap
writes at all.) -/
theorem C10_no_caller_mutation (h : Heap) (r : Nat) (hr : r < h.cells.length) :
    ((initOnHeap h r).1).read r = h.read r := by
  have hne : (h.alloc (h.read r)).2 ≠ r := Nat.ne_of_gt hr
  unfold initOnHeap
  rw [dictPop_read_other _ _ _ _ hne, dictPop_read_other _ _ _ _ hne,
      dictPop_read_other _ _ _ _ hne, read_alloc_lt _ _ _ hr]

/-- Witness for C10: a caller dict holding a reserved key `select` and
a filter key; after construction the caller's dict is unchanged while
the parser's private copy has had `select` popped. -/
theorem C10_witness :
    (0 < (Heap.mk [[(pystr "select", pystr "id"), (pystr "name", pystr "x")]]).cells.length ∧
     ((initOnHeap (Heap.mk [[(pystr "select", pystr "id"), (pystr "name", pystr "x")]]) 0).1).read
       ((initOnHeap (Heap.mk [[(pystr "select", pystr "id"), (pystr "name", pystr "x")]]) 0).2.paramsRef) =
       [(pystr "name", pystr "x")]) ∧
    ((initOnHeap (Heap.mk [[(pystr "select", pystr "id"), (pystr "name", pystr "x")]]) 0).1).read 0 =
      (Heap.mk [[(pystr "select", pystr "id"), (pystr "name", pystr "x")]]).read 0 :=
  ⟨by decide,
   C10_no_caller_mutation
     (Heap.mk [[(pystr "select", pystr "id"), (pystr "name", pystr "x")]]) 0 (by decide)⟩
